import Mathlib

/-!
Verification of the branch-visit reporting application's core logic:
the visit lifecycle state machine, the coverage computation, the form
validator, the aggregation functions, and the export formatter, each
embedded shallowly from the corresponding source functions.
-/

set_option autoImplicit false

/-- JavaScript Math.round on a rational number: round half toward
positive infinity. -/
def jsRound (x : ℚ) : ℤ := ⌊x + 1/2⌋

/-! ## Visit lifecycle (reportService.updateReportStatus, EditVisitModal,
BHRDetailsModal, MyVisits) -/

/-- Persisted status of a branch visit. -/
inductive VisitStatus
  | draft
  | submitted
  | approved
  | rejected
deriving DecidableEq, Repr, Fintype

/-- Operations of the system that update the status column of an existing
visit row: saving or submitting through the edit modal, approving or
rejecting through the reviewer modal. -/
inductive LifecycleOp
  | saveDraft
  | submitReport
  | approveReport
  | rejectReport
deriving DecidableEq, Repr, Fintype

/-- The Edit button that opens the edit modal is rendered only when
the listed visit has status draft. -/
def editAllowed (s : VisitStatus) : Bool := s = .draft

/-- The Approve and Reject buttons in the reviewer detail modal are
rendered only when the displayed report has status submitted. -/
def reviewAllowed (s : VisitStatus) : Bool := s = .submitted

/-- Effect of each lifecycle operation on the status of a visit in state
s: the new status when the operation's UI guard admits it, none when the
guard hides the operation. Save and submit write status draft and
submitted through the edit modal update; approve and reject write through
updateReportStatus. -/
def applyOp : LifecycleOp → VisitStatus → Option VisitStatus
  | .saveDraft, s => if editAllowed s then some .draft else none
  | .submitReport, s => if editAllowed s then some .submitted else none
  | .approveReport, s => if reviewAllowed s then some .approved else none
  | .rejectReport, s => if reviewAllowed s then some .rejected else none

/-! ## Coverage (NewVisit.calculateCoverage) -/

/-- Embedding of calculateCoverage in NewVisit: when the invited count is
positive, Math.round of participants over invited times 100, otherwise 0. -/
def calculateCoverage (invited participants : ℚ) : ℤ :=
  if 0 < invited then jsRound (participants / invited * 100) else 0

/-! ## JavaScript objects with dynamic keys -/

/-- Lookup of a property on a JavaScript object modelled as an association
list in insertion order; none models an absent property. -/
def getProp {A : Type} : List (String × A) → String → Option A
  | [], _ => none
  | (k, v) :: rest, key => if k = key then some v else getProp rest key

/-- Property assignment on a JavaScript object: an existing key is updated
in place, a new key is appended, preserving enumeration order. -/
def setProp {A : Type} : List (String × A) → String → A → List (String × A)
  | [], key, v => [(key, v)]
  | (k, w) :: rest, key, v =>
      if k = key then (k, v) :: rest else (k, w) :: setProp rest key v

/-! ## Visit form validator (NewVisit.formSchema) -/

/-- Candidate field values of the new-visit form, as constrained by the
zod schema in NewVisit: required numbers are plain rationals, optional
numbers and strings are options. -/
structure VisitFormInput where
  branchId : String
  branchCode : String
  branchCategory : String
  hrConnectSession : Bool
  totalEmployeesInvited : ℚ
  totalParticipants : ℚ
  manningPercentage : ℚ
  attritionPercentage : ℚ
  leaders_aligned_with_code : String
  employees_feel_safe : String
  employees_feel_motivated : String
  leaders_abusive_language : String
  employees_comfort_escalation : String
  inclusive_culture : String
  feedback : Option String
  nonVendorPercentage : Option ℚ
  erPercentage : Option ℚ
  cwtCases : Option ℚ
  performanceLevel : Option String
  newEmployeesTotal : Option ℚ
  newEmployeesCovered : Option ℚ
  starEmployeesTotal : Option ℚ
  starEmployeesCovered : Option ℚ

/-- Check of a zod number chain with min 0 and max 100. -/
def pctRange (x : ℚ) : Bool := decide (0 ≤ x) && decide (x ≤ 100)

/-- Check of a zod number chain with min 0. -/
def minZero (x : ℚ) : Bool := decide (0 ≤ x)

/-- Check of an optional zod number chain: an absent value passes, a
present value must pass the inner check. -/
def checkOpt (p : ℚ → Bool) : Option ℚ → Bool
  | none => true
  | some x => p x

/-- Membership of a qualitative answer in the closed enum of the schema. -/
def isYesNo (s : String) : Bool := s == "yes" || s == "no"

/-- Embedding of formSchema in NewVisit: conjunction of every field
constraint declared by the zod object schema. -/
def formSchemaValidates (v : VisitFormInput) : Bool :=
  ["", "platinum", "diamond", "gold", "silver", "bronze"].contains v.branchCategory &&
  minZero v.totalEmployeesInvited &&
  minZero v.totalParticipants &&
  pctRange v.manningPercentage &&
  pctRange v.attritionPercentage &&
  isYesNo v.leaders_aligned_with_code &&
  isYesNo v.employees_feel_safe &&
  isYesNo v.employees_feel_motivated &&
  isYesNo v.leaders_abusive_language &&
  isYesNo v.employees_comfort_escalation &&
  isYesNo v.inclusive_culture &&
  (match v.feedback with
   | none => true
   | some f => decide (f.length ≤ 200)) &&
  checkOpt pctRange v.nonVendorPercentage &&
  checkOpt pctRange v.erPercentage &&
  checkOpt minZero v.cwtCases &&
  checkOpt minZero v.newEmployeesTotal &&
  checkOpt minZero v.newEmployeesCovered &&
  checkOpt minZero v.starEmployeesTotal &&
  checkOpt minZero v.starEmployeesCovered

/-! ## Per-representative report stats (reportService.fetchBHRReportStats) -/

/-- One row of the status-only select that fetchBHRReportStats runs. -/
structure StatusRow where
  status : String
deriving DecidableEq, Repr

/-- Aggregated report counts per representative. -/
structure ReportStats where
  total : ℕ
  draft : ℕ
  submitted : ℕ
  approved : ℕ
  rejected : ℕ
deriving DecidableEq, Repr

/-- Embedding of fetchBHRReportStats: the length of the fetched rows and
one filtered count per status string. -/
def fetchBHRReportStats (data : List StatusRow) : ReportStats where
  total := data.length
  draft := (data.filter (fun item => item.status == "draft")).length
  submitted := (data.filter (fun item => item.status == "submitted")).length
  approved := (data.filter (fun item => item.status == "approved")).length
  rejected := (data.filter (fun item => item.status == "rejected")).length

/-! ## Export formatter (CHReports.handleDownloadBranchVisits) -/

/-- Scalar value of a flat export record as JSON.stringify sees it. -/
inductive JValue
  | str (s : String)
  | num (n : ℤ)
  | bool (b : Bool)
  | null
deriving DecidableEq, Repr

/-- Decimal digit characters of a natural number accumulated most
significant first, as a number renders in a JSON document. -/
def natDecimalAux (n : ℕ) (acc : List Char) : List Char :=
  if n < 10 then Char.ofNat (48 + n % 10) :: acc
  else natDecimalAux (n / 10) (Char.ofNat (48 + n % 10) :: acc)
termination_by n
decreasing_by exact Nat.div_lt_self (by omega) (by norm_num)

/-- Decimal digit characters of a natural number. -/
def natDecimal (n : ℕ) : List Char := natDecimalAux n []

/-- Decimal rendering of an integer, with a leading minus when negative. -/
def intDecimal (n : ℤ) : String :=
  String.mk ((if n < 0 then ['-'] else []) ++ natDecimal n.natAbs)

/-- Lowercase hexadecimal digit character. -/
def hexDigit (k : ℕ) : Char := "0123456789abcdef".toList.getD k '0'

/-- Four-digit lowercase hex escape used by JSON.stringify for control
characters below space. -/
def hexEscape (n : ℕ) : String :=
  String.mk ['\\', 'u', '0', '0', hexDigit (n / 16), hexDigit (n % 16)]

/-- JSON.stringify escaping of one character inside a string literal. -/
def jsonEscapeChar (c : Char) : String :=
  if c = '"' then "\\\""
  else if c = '\\' then "\\\\"
  else if c = '\n' then "\\n"
  else if c = '\r' then "\\r"
  else if c = '\t' then "\\t"
  else if c = Char.ofNat 8 then "\\b"
  else if c = Char.ofNat 12 then "\\f"
  else if c.toNat < 32 then hexEscape c.toNat
  else String.mk [c]

/-- Escaping of every character of a JSON string body. -/
def jsonEscapeChars : List Char → List Char
  | [] => []
  | c :: cs => (jsonEscapeChar c).data ++ jsonEscapeChars cs

/-- JSON.stringify of a scalar value. -/
def jsonStringify : JValue → String
  | .str s => String.mk ('"' :: jsonEscapeChars s.data ++ ['"'])
  | .num n => intDecimal n
  | .bool true => "true"
  | .bool false => "false"
  | .null => "null"

/-- One flat export record: a JavaScript object, keys in insertion order. -/
abbrev CsvRecord := List (String × JValue)

/-- Rendering of one cell: JSON.stringify of the property named by the
header; an absent property renders as the empty string inside
Array.prototype.join. -/
def csvCell (row : CsvRecord) (h : String) : String :=
  match getProp row h with
  | some v => jsonStringify v
  | none => ""

/-- Result of an export handler: either the no-data toast with an early
return, or a downloaded file together with the completion toast. -/
inductive ExportOutcome
  | noData (title description : String)
  | file (filename content title description : String)
deriving DecidableEq, Repr

/-- Embedding of handleDownloadBranchVisits in CHReports: early return
with a notice when no rows were fetched; otherwise the CSV body joins a
header row taken from the first record's keys and one JSON-stringified
data row per record, downloaded under the month-and-year file name. -/
def handleDownloadBranchVisits (data : List CsvRecord)
    (selectedMonth selectedYear : String) : ExportOutcome :=
  match data with
  | [] => .noData "No data to export"
      "There are no branch visits matching your filters."
  | r :: rs =>
      .file ("branch_visits_" ++ selectedMonth ++ "_" ++ selectedYear ++ ".csv")
        (String.intercalate "\n"
          (String.intercalate "," (r.map Prod.fst) ::
            (r :: rs).map (fun row =>
              String.intercalate "," ((r.map Prod.fst).map (csvCell row)))))
        "Download complete"
        "Branch visit data has been exported successfully."

/-! ## Qualitative heatmap (reportService.getQualitativeMetricsForHeatmap) -/

/-- JavaScript number in a heatmap row cell: either a proper integer or
the NaN produced by arithmetic on a missing property. -/
inductive JNum
  | nan
  | int (n : ℤ)
deriving DecidableEq, Repr

/-- JavaScript increment of a possibly missing row property: a present
integer increments; a missing property reads as undefined, and undefined
plus one is NaN; NaN plus one stays NaN. -/
def jsIncr : Option JNum → JNum
  | some (.int n) => .int (n + 1)
  | some .nan => .nan
  | none => .nan

/-- Branch join object embedded in the heatmap select. -/
structure BranchJoin where
  category : Option String
deriving DecidableEq, Repr

/-- One underlying visit row as the heatmap query sees it: the six
qualitative columns, the joined branch, and the columns the query filters
on. none models a null column. -/
structure QualRow where
  leaders_aligned_with_code : Option String
  employees_feel_safe : Option String
  employees_feel_motivated : Option String
  leaders_abusive_language : Option String
  employees_comfort_escalation : Option String
  inclusive_culture : Option String
  branches : Option BranchJoin
  visit_date : ℤ
  status : String
deriving DecidableEq, Repr

/-- Value of one of the six metric columns of a row, by column name. -/
def getMetricValue (item : QualRow) : String → Option String
  | "leaders_aligned_with_code" => item.leaders_aligned_with_code
  | "employees_feel_safe" => item.employees_feel_safe
  | "employees_feel_motivated" => item.employees_feel_motivated
  | "leaders_abusive_language" => item.leaders_abusive_language
  | "employees_comfort_escalation" => item.employees_comfort_escalation
  | "inclusive_culture" => item.inclusive_culture
  | _ => none

/-- The six qualitative metric names, in the order of the source. -/
def heatmapMetrics : List String :=
  ["leaders_aligned_with_code", "employees_feel_safe",
   "employees_feel_motivated", "leaders_abusive_language",
   "employees_comfort_escalation", "inclusive_culture"]

/-- One heatmap row object: the metric name plus the dynamic numeric
properties of the row object. -/
structure HeatRow where
  metric : String
  props : List (String × JNum)
deriving DecidableEq, Repr

/-- Row object literal of the source: the five rating keys and the total,
all zero; no yes or no key is initialized. -/
def initHeatRow (metric : String) : HeatRow :=
  ⟨metric, [("very_poor", .int 0), ("poor", .int 0), ("neutral", .int 0),
    ("good", .int 0), ("excellent", .int 0), ("total", .int 0)]⟩

/-- In-place update of the first row whose metric matches, as the find
call of the source returns the object that is then mutated. -/
def updateFirstRow (metric : String) (f : HeatRow → HeatRow) :
    List HeatRow → List HeatRow
  | [] => []
  | r :: rs =>
      if r.metric = metric then f r :: rs
      else r :: updateFirstRow metric f rs

/-- Mutation performed on the found row for one truthy value: increment
the property named by the value, then increment the total. -/
def bumpHeatRow (value : String) (r : HeatRow) : HeatRow :=
  let p1 := setProp r.props value (jsIncr (getProp r.props value))
  ⟨r.metric, setProp p1 "total" (jsIncr (getProp p1 "total"))⟩

/-- Fold of one fetched row over all six metrics: a truthy column value
bumps the matching heatmap row; null and the empty string are falsy and
skipped. -/
def applyQualRow (rows : List HeatRow) (item : QualRow) : List HeatRow :=
  heatmapMetrics.foldl
    (fun acc metric =>
      match getMetricValue item metric with
      | some s => if s ≠ "" then updateFirstRow metric (bumpHeatRow s) acc
                  else acc
      | none => acc)
    rows

/-- Embedding of getQualitativeMetricsForHeatmap in reportService: select
approved visits, optionally restrict by date range and branch category,
then accumulate every truthy qualitative value into the row objects. -/
def getQualitativeMetricsForHeatmap (table : List QualRow)
    (dateFrom dateTo : Option ℤ) (branchCategory : Option String) :
    List HeatRow :=
  let afterStatus : List QualRow :=
    table.filter (fun item => item.status == "approved")
  let afterDate : List QualRow :=
    match dateFrom with
    | none => afterStatus
    | some f =>
        let g := afterStatus.filter (fun item => decide (f ≤ item.visit_date))
        match dateTo with
        | none => g
        | some t => g.filter (fun item => decide (item.visit_date ≤ t))
  let filteredData :=
    match branchCategory with
    | none => afterDate
    | some c => afterDate.filter (fun item =>
        match item.branches with
        | some b => b.category == some c
        | none => false)
  filteredData.foldl applyQualRow (heatmapMetrics.map initHeatRow)

/-! ## Category-month stats (fetchCategoryStatsByMonth) -/

/-- One fetched visit row of the category-stats select. -/
structure CatVisitRow where
  branch_category : Option String
  manning_percentage : Option ℚ
  attrition_percentage : Option ℚ
  visit_date : ℤ
  status : String
deriving DecidableEq, Repr

/-- One row of the branches select. -/
structure BranchRow where
  category : Option String
deriving DecidableEq, Repr

/-- JavaScript string-or-default as in branch.category or a fallback:
null and the empty string are falsy and fall back. -/
def jsOrStr (v : Option String) (dflt : String) : String :=
  match v with
  | some s => if s = "" then dflt else s
  | none => dflt

/-- JavaScript number-or-zero as in row.manning_percentage or 0. -/
def jsOrZero (v : Option ℚ) : ℚ :=
  match v with
  | some x => x
  | none => 0

/-- Aggregate record per category while folding over visits. -/
structure StatAgg where
  visits : ℕ
  manningSum : ℚ
  attritionSum : ℚ
deriving DecidableEq, Repr

/-- One emitted category entry. -/
structure CategoryStat where
  name : String
  visits : ℕ
  avgManning : ℤ
  avgAttrition : ℤ
  branchCount : ℕ
deriving DecidableEq, Repr

/-- One step of the reduce over the branches select: count the branch
under its normalized category key. -/
def branchCountsStep (acc : List (String × ℕ)) (b : BranchRow) :
    List (String × ℕ) :=
  setProp acc (jsOrStr b.category "Uncategorized")
    ((getProp acc (jsOrStr b.category "Uncategorized")).getD 0 + 1)

/-- Reduce of the branches select into the per-category count object. -/
def branchCountsObj (branches : List BranchRow) : List (String × ℕ) :=
  branches.foldl branchCountsStep []

/-- One step of the fold over the filtered visit rows: initialize a
missing aggregate with zeros, then add the row into its category. -/
def catStatsStep (stats : List (String × StatAgg)) (row : CatVisitRow) :
    List (String × StatAgg) :=
  let cat := jsOrStr row.branch_category "Uncategorized"
  let cur := (getProp stats cat).getD ⟨0, 0, 0⟩
  setProp stats cat
    ⟨cur.visits + 1, cur.manningSum + jsOrZero row.manning_percentage,
      cur.attritionSum + jsOrZero row.attrition_percentage⟩

/-- Fold of the filtered visit rows into the per-category aggregate
object. -/
def catStatsObj (rows : List CatVisitRow) : List (String × StatAgg) :=
  rows.foldl catStatsStep []

/-- The store-side filter of the category-stats query: visit date inside
the month bounds and status submitted or approved; startDate and endDate
stand for the first and last day of the month that the source computes
from year and month. -/
def monthStatusFilter (startDate endDate : ℤ) (data : List CatVisitRow) :
    List CatVisitRow :=
  data.filter (fun row =>
    decide (startDate ≤ row.visit_date) && decide (row.visit_date ≤ endDate) &&
      (row.status == "submitted" || row.status == "approved"))

/-- Embedding of fetchCategoryStatsByMonth: group the month's submitted
and approved visits by the stored branch category and emit one entry per
grouped category with rounded means and the live branch count. -/
def fetchCategoryStatsByMonth (data : List CatVisitRow)
    (branches : List BranchRow) (startDate endDate : ℤ) :
    List CategoryStat :=
  (catStatsObj (monthStatusFilter startDate endDate data)).map (fun entry =>
    { name := entry.1
      visits := entry.2.visits
      avgManning :=
        if entry.2.visits ≠ 0 then jsRound (entry.2.manningSum / entry.2.visits)
        else 0
      avgAttrition :=
        if entry.2.visits ≠ 0 then
          jsRound (entry.2.attritionSum / entry.2.visits)
        else 0
      branchCount := (getProp (branchCountsObj branches) entry.1).getD 0 })

/-- Reference count following the amended claim's words: qualifying
visits of the month whose normalized stored category is the given one. -/
def specVisitCount (rows : List CatVisitRow) (c : String) : ℕ :=
  (rows.filter (fun row => jsOrStr row.branch_category "Uncategorized" = c)).length

/-- Reference sum of manning percentages (null as 0) over the qualifying
visits of one category. -/
def specManningSum (rows : List CatVisitRow) (c : String) : ℚ :=
  ((rows.filter (fun row => jsOrStr row.branch_category "Uncategorized" = c)).map
    (fun row => jsOrZero row.manning_percentage)).sum

/-- Reference sum of attrition percentages (null as 0) over the
qualifying visits of one category. -/
def specAttritionSum (rows : List CatVisitRow) (c : String) : ℚ :=
  ((rows.filter (fun row => jsOrStr row.branch_category "Uncategorized" = c)).map
    (fun row => jsOrZero row.attrition_percentage)).sum

/-- Reference live branch count of one category label. -/
def specBranchCount (branches : List BranchRow) (c : String) : ℕ :=
  (branches.filter (fun b => jsOrStr b.category "Uncategorized" = c)).length

/-- Addition of a batch of counted visits onto an optional aggregate: an
existing aggregate grows, a missing one is created only when the batch is
non-empty. Characterizes the category fold. -/
def aggPlus (o : Option StatAgg) (cnt : ℕ) (ms sa : ℚ) : Option StatAgg :=
  match o with
  | some agg =>
      some ⟨agg.visits + cnt, agg.manningSum + ms, agg.attritionSum + sa⟩
  | none => if 0 < cnt then some ⟨cnt, ms, sa⟩ else none

/-! ## Dashboard coverage (CHReports) -/

/-- One row of the monthly summary data as the coverage stat reads it. -/
structure SummaryVisitRow where
  branch_id : String
deriving DecidableEq, Repr

/-- Embedding of the Coverage Percentage stat of CHReports: Math.round of
the size of the set of distinct branch ids over the number of summary
rows, times 100. -/
def chCoveragePercentage (summaryData : List SummaryVisitRow) : ℤ :=
  jsRound ((((summaryData.map (fun v => v.branch_id)).dedup.length : ℚ) /
    (summaryData.length : ℚ)) * 100)

/-- Definition following the spec's words, for comparison with the code:
round of distinct branches visited over the total branch count, times
100. -/
def specDashboardCoverage (distinctBranchesVisited totalBranches : ℕ) : ℤ :=
  jsRound ((distinctBranchesVisited : ℚ) / (totalBranches : ℚ) * 100)

/-! ## Persisted updates per lifecycle transition -/

/-- One update request issued to the remote store: target table, partial
payload of column values, and the id filter. -/
structure UpdateRequest where
  table : String
  payload : List (String × String)
  id : String
deriving DecidableEq, Repr

/-- Embedding of updateReportStatus in reportService: the single update
that approve and reject issue, whose payload carries only the status
column. -/
def updateReportStatusRequests (reportId status : String) :
    List UpdateRequest :=
  [⟨"branch_visits", [("status", status)], reportId⟩]

/-- Payload of the edit-modal update: the spread of the form data with
the status and updated_at keys written last. -/
def updateVisitPayload (data : List (String × String))
    (status updatedAt : String) : List (String × String) :=
  setProp (setProp data "status" status) "updated_at" updatedAt

/-- Embedding of updateVisit in EditVisitModal: the single update that
save and submit issue. -/
def updateVisitRequests (visitId : String) (data : List (String × String))
    (status updatedAt : String) : List UpdateRequest :=
  [⟨"branch_visits", updateVisitPayload data status updatedAt, visitId⟩]

/-- Application of an update payload to a stored row: listed columns are
replaced, all others keep their values. -/
def applyPayload (row payload : List (String × String)) :
    List (String × String) :=
  payload.foldl (fun r kv => setProp r kv.1 kv.2) row

/-! ## Theorems -/

/-- C1: the visit status state machine admits only these moves: a draft
visit can reach submitted; a submitted visit can reach exactly one of
approved or rejected; and no operation of the system changes the status
of an approved or rejected visit. -/
theorem visit_lifecycle_state_machine :
    applyOp .submitReport .draft = some .submitted ∧
    applyOp .approveReport .submitted = some .approved ∧
    applyOp .rejectReport .submitted = some .rejected ∧
    (∀ op : LifecycleOp, applyOp op .approved = none) ∧
    (∀ op : LifecycleOp, applyOp op .rejected = none) ∧
    (∀ (op : LifecycleOp) (s t : VisitStatus), applyOp op s = some t → t ≠ s →
      (s = .draft ∧ t = .submitted) ∨
      (s = .submitted ∧ (t = .approved ∨ t = .rejected))) := by
  decide

/-- Witness for C1 at a concrete transition. -/
theorem visit_lifecycle_state_machine_witness :
    (VisitStatus.submitted = .draft ∧ VisitStatus.approved = .submitted) ∨
    (VisitStatus.submitted = .submitted ∧
      (VisitStatus.approved = .approved ∨ VisitStatus.approved = .rejected)) :=
  visit_lifecycle_state_machine.2.2.2.2.2 .approveReport .submitted .approved
    (by decide) (by decide)

/-- C2: coverage equals Math.round of participants over invited times 100
when invited is positive, and is exactly 0 when invited is 0, with no
division error. -/
theorem coverage_percentage_correct (invited participants : ℚ) :
    (invited = 0 → calculateCoverage invited participants = 0) ∧
    (0 < invited →
      calculateCoverage invited participants =
        jsRound (participants / invited * 100)) := by
  constructor
  · intro h
    simp [calculateCoverage, h]
  · intro h
    simp [calculateCoverage, h]

/-- Witness for C2: invited 0 gives coverage 0, and the spec scenario of
50 invited with 40 participants gives 80 percent. -/
theorem coverage_percentage_correct_witness :
    calculateCoverage 0 7 = 0 ∧
    calculateCoverage 50 40 = jsRound (40 / 50 * 100) ∧
    calculateCoverage 50 40 = 80 :=
  ⟨(coverage_percentage_correct 0 7).1 rfl,
   (coverage_percentage_correct 50 40).2 (by norm_num),
   by norm_num [calculateCoverage, jsRound, Int.floor_eq_iff]⟩

/-- Soundness of the validator: a record that passes formSchema satisfies
every numeric range constraint. -/
theorem formSchema_bounds (v : VisitFormInput) (h : formSchemaValidates v = true) :
    0 ≤ v.totalEmployeesInvited ∧ 0 ≤ v.totalParticipants ∧
    (0 ≤ v.manningPercentage ∧ v.manningPercentage ≤ 100) ∧
    (0 ≤ v.attritionPercentage ∧ v.attritionPercentage ≤ 100) ∧
    (∀ x, v.nonVendorPercentage = some x → 0 ≤ x ∧ x ≤ 100) ∧
    (∀ x, v.erPercentage = some x → 0 ≤ x ∧ x ≤ 100) ∧
    (∀ x, v.cwtCases = some x → 0 ≤ x) ∧
    (∀ x, v.newEmployeesTotal = some x → 0 ≤ x) ∧
    (∀ x, v.newEmployeesCovered = some x → 0 ≤ x) ∧
    (∀ x, v.starEmployeesTotal = some x → 0 ≤ x) ∧
    (∀ x, v.starEmployeesCovered = some x → 0 ≤ x) := by
  simp only [formSchemaValidates, Bool.and_eq_true] at h
  obtain ⟨⟨⟨⟨⟨⟨⟨⟨⟨⟨⟨⟨⟨⟨⟨⟨⟨⟨hcat, hinv⟩, hpart⟩, hman⟩, hattr⟩, hq1⟩, hq2⟩,
    hq3⟩, hq4⟩, hq5⟩, hq6⟩, hfb⟩, hnv⟩, her⟩, hcwt⟩, hnet⟩, hnec⟩, hset⟩, hsec⟩ := h
  refine ⟨?_, ?_, ?_, ?_, ?_, ?_, ?_, ?_, ?_, ?_, ?_⟩
  · simpa [minZero] using hinv
  · simpa [minZero] using hpart
  · simpa [pctRange] using hman
  · simpa [pctRange] using hattr
  · intro x hx; rw [hx] at hnv; simpa [checkOpt, pctRange] using hnv
  · intro x hx; rw [hx] at her; simpa [checkOpt, pctRange] using her
  · intro x hx; rw [hx] at hcwt; simpa [checkOpt, minZero] using hcwt
  · intro x hx; rw [hx] at hnet; simpa [checkOpt, minZero] using hnet
  · intro x hx; rw [hx] at hnec; simpa [checkOpt, minZero] using hnec
  · intro x hx; rw [hx] at hset; simpa [checkOpt, minZero] using hset
  · intro x hx; rw [hx] at hsec; simpa [checkOpt, minZero] using hsec

/-- C5: a candidate visit record with a percentage field outside 0 to
100, or a count field below 0, is rejected by the validator and so never
reaches persistence. -/
theorem validator_rejects_out_of_range (v : VisitFormInput) :
    ((v.manningPercentage < 0 ∨ 100 < v.manningPercentage) →
      formSchemaValidates v = false) ∧
    ((v.attritionPercentage < 0 ∨ 100 < v.attritionPercentage) →
      formSchemaValidates v = false) ∧
    (∀ x, v.nonVendorPercentage = some x → (x < 0 ∨ 100 < x) →
      formSchemaValidates v = false) ∧
    (∀ x, v.erPercentage = some x → (x < 0 ∨ 100 < x) →
      formSchemaValidates v = false) ∧
    (v.totalEmployeesInvited < 0 → formSchemaValidates v = false) ∧
    (v.totalParticipants < 0 → formSchemaValidates v = false) ∧
    (∀ x, v.cwtCases = some x → x < 0 → formSchemaValidates v = false) ∧
    (∀ x, v.newEmployeesTotal = some x → x < 0 → formSchemaValidates v = false) ∧
    (∀ x, v.newEmployeesCovered = some x → x < 0 → formSchemaValidates v = false) ∧
    (∀ x, v.starEmployeesTotal = some x → x < 0 → formSchemaValidates v = false) ∧
    (∀ x, v.starEmployeesCovered = some x → x < 0 → formSchemaValidates v = false) := by
  have key : ∀ (motive : Prop),
      (formSchemaValidates v = true → ¬ motive) → motive →
      formSchemaValidates v = false := by
    intro motive hsound hm
    cases hval : formSchemaValidates v with
    | false => rfl
    | true => exact absurd hm (hsound hval)
  refine ⟨?_, ?_, ?_, ?_, ?_, ?_, ?_, ?_, ?_, ?_, ?_⟩
  · exact key _ (fun hv h => by
      obtain ⟨-, -, hb, -⟩ := formSchema_bounds v hv
      rcases h with h | h <;> linarith [hb.1, hb.2])
  · exact key _ (fun hv h => by
      obtain ⟨-, -, -, hb, -⟩ := formSchema_bounds v hv
      rcases h with h | h <;> linarith [hb.1, hb.2])
  · intro x hx
    exact key _ (fun hv h => by
      obtain ⟨-, -, -, -, hb, -⟩ := formSchema_bounds v hv
      obtain ⟨h1, h2⟩ := hb x hx
      rcases h with h | h <;> linarith)
  · intro x hx
    exact key _ (fun hv h => by
      obtain ⟨-, -, -, -, -, hb, -⟩ := formSchema_bounds v hv
      obtain ⟨h1, h2⟩ := hb x hx
      rcases h with h | h <;> linarith)
  · exact key _ (fun hv h => by
      obtain ⟨hb, -⟩ := formSchema_bounds v hv
      linarith)
  · exact key _ (fun hv h => by
      obtain ⟨-, hb, -⟩ := formSchema_bounds v hv
      linarith)
  · intro x hx
    exact key _ (fun hv h => by
      obtain ⟨-, -, -, -, -, -, hb, -⟩ := formSchema_bounds v hv
      linarith [hb x hx])
  · intro x hx
    exact key _ (fun hv h => by
      obtain ⟨-, -, -, -, -, -, -, hb, -⟩ := formSchema_bounds v hv
      linarith [hb x hx])
  · intro x hx
    exact key _ (fun hv h => by
      obtain ⟨-, -, -, -, -, -, -, -, hb, -⟩ := formSchema_bounds v hv
      linarith [hb x hx])
  · intro x hx
    exact key _ (fun hv h => by
      obtain ⟨-, -, -, -, -, -, -, -, -, hb, -⟩ := formSchema_bounds v hv
      linarith [hb x hx])
  · intro x hx
    exact key _ (fun hv h => by
      obtain ⟨-, -, -, -, -, -, -, -, -, -, hb⟩ := formSchema_bounds v hv
      linarith [hb x hx])

/-- Witness for C5: a record with manning percentage 150 is rejected. -/
theorem validator_rejects_out_of_range_witness :
    formSchemaValidates
      ⟨"b1", "001", "gold", true, 10, 5, 150, 20, "yes", "yes", "yes", "no",
        "yes", "yes", none, none, none, none, none, none, none, none, none⟩
      = false :=
  (validator_rejects_out_of_range _).1 (Or.inr (by norm_num))

/-- Partition bound for the four status filters on a list of strings: the
four counts never exceed the length, with equality exactly when every
element is one of the four statuses. -/
theorem four_status_filter_partition (l : List String) :
    ((l.filter (· == "draft")).length + (l.filter (· == "submitted")).length +
      (l.filter (· == "approved")).length + (l.filter (· == "rejected")).length
        ≤ l.length) ∧
    ((l.filter (· == "draft")).length + (l.filter (· == "submitted")).length +
      (l.filter (· == "approved")).length + (l.filter (· == "rejected")).length
        = l.length ↔
      ∀ s ∈ l, s = "draft" ∨ s = "submitted" ∨ s = "approved" ∨ s = "rejected") := by
  induction l with
  | nil => simp
  | cons s t ih =>
    obtain ⟨ih1, ih2⟩ := ih
    by_cases h1 : s = "draft"
    · subst h1
      have e1 : (("draft" :: t).filter (· == "draft")).length
          = (t.filter (· == "draft")).length + 1 := by simp [List.filter_cons]
      have e2 : (("draft" :: t).filter (· == "submitted")).length
          = (t.filter (· == "submitted")).length := by simp [List.filter_cons]
      have e3 : (("draft" :: t).filter (· == "approved")).length
          = (t.filter (· == "approved")).length := by simp [List.filter_cons]
      have e4 : (("draft" :: t).filter (· == "rejected")).length
          = (t.filter (· == "rejected")).length := by simp [List.filter_cons]
      rw [e1, e2, e3, e4, List.length_cons, List.forall_mem_cons]
      refine ⟨by omega, ⟨fun h => ⟨Or.inl rfl, ih2.mp (by omega)⟩, fun h => ?_⟩⟩
      obtain ⟨-, hrest⟩ := h
      have := ih2.mpr hrest
      omega
    · by_cases h2 : s = "submitted"
      · subst h2
        have e1 : (("submitted" :: t).filter (· == "draft")).length
            = (t.filter (· == "draft")).length := by simp [List.filter_cons]
        have e2 : (("submitted" :: t).filter (· == "submitted")).length
            = (t.filter (· == "submitted")).length + 1 := by
          simp [List.filter_cons]
        have e3 : (("submitted" :: t).filter (· == "approved")).length
            = (t.filter (· == "approved")).length := by simp [List.filter_cons]
        have e4 : (("submitted" :: t).filter (· == "rejected")).length
            = (t.filter (· == "rejected")).length := by simp [List.filter_cons]
        rw [e1, e2, e3, e4, List.length_cons, List.forall_mem_cons]
        refine ⟨by omega,
          ⟨fun h => ⟨Or.inr (Or.inl rfl), ih2.mp (by omega)⟩, fun h => ?_⟩⟩
        obtain ⟨-, hrest⟩ := h
        have := ih2.mpr hrest
        omega
      · by_cases h3 : s = "approved"
        · subst h3
          have e1 : (("approved" :: t).filter (· == "draft")).length
              = (t.filter (· == "draft")).length := by simp [List.filter_cons]
          have e2 : (("approved" :: t).filter (· == "submitted")).length
              = (t.filter (· == "submitted")).length := by
            simp [List.filter_cons]
          have e3 : (("approved" :: t).filter (· == "approved")).length
              = (t.filter (· == "approved")).length + 1 := by
            simp [List.filter_cons]
          have e4 : (("approved" :: t).filter (· == "rejected")).length
              = (t.filter (· == "rejected")).length := by simp [List.filter_cons]
          rw [e1, e2, e3, e4, List.length_cons, List.forall_mem_cons]
          refine ⟨by omega,
            ⟨fun h => ⟨Or.inr (Or.inr (Or.inl rfl)), ih2.mp (by omega)⟩,
             fun h => ?_⟩⟩
          obtain ⟨-, hrest⟩ := h
          have := ih2.mpr hrest
          omega
        · by_cases h4 : s = "rejected"
          · subst h4
            have e1 : (("rejected" :: t).filter (· == "draft")).length
                = (t.filter (· == "draft")).length := by simp [List.filter_cons]
            have e2 : (("rejected" :: t).filter (· == "submitted")).length
                = (t.filter (· == "submitted")).length := by
              simp [List.filter_cons]
            have e3 : (("rejected" :: t).filter (· == "approved")).length
                = (t.filter (· == "approved")).length := by
              simp [List.filter_cons]
            have e4 : (("rejected" :: t).filter (· == "rejected")).length
                = (t.filter (· == "rejected")).length + 1 := by
              simp [List.filter_cons]
            rw [e1, e2, e3, e4, List.length_cons, List.forall_mem_cons]
            refine ⟨by omega,
              ⟨fun h => ⟨Or.inr (Or.inr (Or.inr rfl)), ih2.mp (by omega)⟩,
               fun h => ?_⟩⟩
            obtain ⟨-, hrest⟩ := h
            have := ih2.mpr hrest
            omega
          · have e1 : ((s :: t).filter (· == "draft")).length
                = (t.filter (· == "draft")).length := by
              simp [List.filter_cons, h1]
            have e2 : ((s :: t).filter (· == "submitted")).length
                = (t.filter (· == "submitted")).length := by
              simp [List.filter_cons, h2]
            have e3 : ((s :: t).filter (· == "approved")).length
                = (t.filter (· == "approved")).length := by
              simp [List.filter_cons, h3]
            have e4 : ((s :: t).filter (· == "rejected")).length
                = (t.filter (· == "rejected")).length := by
              simp [List.filter_cons, h4]
            rw [e1, e2, e3, e4, List.length_cons, List.forall_mem_cons]
            refine ⟨by omega, ⟨fun h => absurd h (by omega), fun h => ?_⟩⟩
            obtain ⟨hs, -⟩ := h
            rcases hs with h | h | h | h
            exacts [absurd h h1, absurd h h2, absurd h h3, absurd h h4]

/-- C10: the per-representative report stats return the list length as
total, one exact count per status bucket, the four buckets sum to the
total exactly when every status is one of the four strings, and the empty
list yields five zeros. -/
theorem bhr_report_stats_correct (data : List StatusRow) :
    (fetchBHRReportStats data).total = data.length ∧
    (fetchBHRReportStats data).draft =
      (data.filter (fun r => r.status == "draft")).length ∧
    (fetchBHRReportStats data).submitted =
      (data.filter (fun r => r.status == "submitted")).length ∧
    (fetchBHRReportStats data).approved =
      (data.filter (fun r => r.status == "approved")).length ∧
    (fetchBHRReportStats data).rejected =
      (data.filter (fun r => r.status == "rejected")).length ∧
    ((fetchBHRReportStats data).draft + (fetchBHRReportStats data).submitted +
        (fetchBHRReportStats data).approved + (fetchBHRReportStats data).rejected
          = (fetchBHRReportStats data).total ↔
      ∀ r ∈ data, r.status = "draft" ∨ r.status = "submitted" ∨
        r.status = "approved" ∨ r.status = "rejected") ∧
    fetchBHRReportStats [] = ⟨0, 0, 0, 0, 0⟩ := by
  refine ⟨rfl, rfl, rfl, rfl, rfl, ?_, rfl⟩
  have hmap : ∀ (p : String → Bool),
      (data.filter (fun r => p r.status)).length =
        ((data.map StatusRow.status).filter p).length := by
    intro p
    induction data with
    | nil => rfl
    | cons r t ihm =>
      simp only [List.filter_cons, List.map_cons]
      cases p r.status <;> simp [ihm]
  have hpart := (four_status_filter_partition (data.map StatusRow.status)).2
  simp only [fetchBHRReportStats]
  rw [hmap (· == "draft"), hmap (· == "submitted"), hmap (· == "approved"),
    hmap (· == "rejected"), ← List.length_map data StatusRow.status, hpart]
  simp

/-- Witness for C10 at a concrete list whose statuses are all standard. -/
theorem bhr_report_stats_correct_witness :
    (fetchBHRReportStats [⟨"draft"⟩, ⟨"approved"⟩]).draft +
      (fetchBHRReportStats [⟨"draft"⟩, ⟨"approved"⟩]).submitted +
      (fetchBHRReportStats [⟨"draft"⟩, ⟨"approved"⟩]).approved +
      (fetchBHRReportStats [⟨"draft"⟩, ⟨"approved"⟩]).rejected
      = (fetchBHRReportStats [⟨"draft"⟩, ⟨"approved"⟩]).total :=
  (bhr_report_stats_correct [⟨"draft"⟩, ⟨"approved"⟩]).2.2.2.2.2.1.mpr
    (by decide)

/-- Characters of the worker loop of String.intercalate come from the
accumulator, the separator or the remaining pieces. -/
theorem mem_intercalate_go (s : String) (c : Char) :
    ∀ (as : List String) (acc : String),
      c ∈ (String.intercalate.go acc s as).data →
      c ∈ acc.data ∨ c ∈ s.data ∨ ∃ a ∈ as, c ∈ a.data := by
  intro as
  induction as with
  | nil => intro acc h; exact Or.inl h
  | cons a as ih =>
    intro acc h
    rw [String.intercalate.go] at h
    rcases ih _ h with h1 | h2 | ⟨b, hb, hc⟩
    · simp only [String.data_append, List.mem_append] at h1
      rcases h1 with (h | h) | h
      · exact Or.inl h
      · exact Or.inr (Or.inl h)
      · exact Or.inr (Or.inr ⟨a, List.mem_cons_self a as, h⟩)
    · exact Or.inr (Or.inl h2)
    · exact Or.inr (Or.inr ⟨b, List.mem_cons_of_mem _ hb, hc⟩)

/-- Characters of String.intercalate come from the separator or from one
of the joined pieces. -/
theorem mem_intercalate_data (s : String) (l : List String) (c : Char)
    (h : c ∈ (String.intercalate s l).data) :
    c ∈ s.data ∨ ∃ a ∈ l, c ∈ a.data := by
  cases l with
  | nil => simp [String.intercalate] at h
  | cons a as =>
    rw [String.intercalate] at h
    rcases mem_intercalate_go s c as a h with h1 | h2 | ⟨b, hb, hc⟩
    · exact Or.inr ⟨a, List.mem_cons_self a as, h1⟩
    · exact Or.inl h2
    · exact Or.inr ⟨b, List.mem_cons_of_mem _ hb, hc⟩

/-- Unfolding of the character data of a string built from a list. -/
theorem string_mk_data (l : List Char) : (String.mk l).data = l := rfl

/-- Hexadecimal digit characters are never a newline. -/
theorem hexDigit_ne_newline (k : ℕ) : hexDigit k ≠ '\n' := by
  unfold hexDigit
  rw [List.getD_eq_getElem?_getD]
  cases h : ("0123456789abcdef".toList)[k]? with
  | none => decide
  | some c =>
    have hall : ∀ x ∈ "0123456789abcdef".toList, x ≠ '\n' := by decide
    simpa using hall c (List.getElem?_mem h)

/-- Decimal digit accumulation never produces a newline. -/
theorem natDecimalAux_ne_newline (n : ℕ) : ∀ (acc : List Char),
    (∀ c ∈ acc, c ≠ '\n') → ∀ c ∈ natDecimalAux n acc, c ≠ '\n' := by
  induction n using Nat.strong_induction_on with
  | _ n ih =>
    intro acc hacc c hc
    have hd : Char.ofNat (48 + n % 10) ≠ '\n' := by
      have h10 : n % 10 < 10 := Nat.mod_lt _ (by norm_num)
      set m := n % 10 with hm
      interval_cases m <;> decide
    rw [natDecimalAux] at hc
    by_cases h : n < 10
    · rw [if_pos h] at hc
      rcases List.mem_cons.mp hc with rfl | hmem
      · exact hd
      · exact hacc c hmem
    · rw [if_neg h] at hc
      refine ih (n / 10) (Nat.div_lt_self (by omega) (by norm_num)) _ ?_ c hc
      intro x hx
      rcases List.mem_cons.mp hx with rfl | hmem
      · exact hd
      · exact hacc x hmem

/-- Escaping one character never produces a newline character. -/
theorem jsonEscapeChar_ne_newline (c x : Char)
    (hx : x ∈ (jsonEscapeChar c).data) : x ≠ '\n' := by
  unfold jsonEscapeChar at hx
  split_ifs at hx with h1 h2 h3 h4 h5 h6 h7 h8
  · exact (by decide : ∀ y ∈ ("\\\"" : String).data, y ≠ '\n') x hx
  · exact (by decide : ∀ y ∈ ("\\\\" : String).data, y ≠ '\n') x hx
  · exact (by decide : ∀ y ∈ ("\\n" : String).data, y ≠ '\n') x hx
  · exact (by decide : ∀ y ∈ ("\\r" : String).data, y ≠ '\n') x hx
  · exact (by decide : ∀ y ∈ ("\\t" : String).data, y ≠ '\n') x hx
  · exact (by decide : ∀ y ∈ ("\\b" : String).data, y ≠ '\n') x hx
  · exact (by decide : ∀ y ∈ ("\\f" : String).data, y ≠ '\n') x hx
  · simp only [hexEscape, string_mk_data, List.mem_cons, List.not_mem_nil,
      or_false] at hx
    rcases hx with rfl | rfl | rfl | rfl | rfl | rfl
    · decide
    · decide
    · decide
    · decide
    · exact hexDigit_ne_newline _
    · exact hexDigit_ne_newline _
  · simp only [string_mk_data, List.mem_cons, List.not_mem_nil, or_false] at hx
    subst hx
    intro hEq
    exact h8 (hEq ▸ (by decide : ('\n').toNat < 32))

/-- Escaping a character list never produces a newline character. -/
theorem jsonEscapeChars_ne_newline (l : List Char) (x : Char)
    (hx : x ∈ jsonEscapeChars l) : x ≠ '\n' := by
  induction l with
  | nil => simp [jsonEscapeChars] at hx
  | cons c cs ih =>
    simp only [jsonEscapeChars, List.mem_append] at hx
    rcases hx with hx | hx
    · exact jsonEscapeChar_ne_newline c x hx
    · exact ih hx

/-- JSON.stringify of a scalar never contains a newline character. -/
theorem jsonStringify_ne_newline (v : JValue) (x : Char)
    (hx : x ∈ (jsonStringify v).data) : x ≠ '\n' := by
  cases v with
  | str s =>
    simp only [jsonStringify, string_mk_data, List.mem_cons, List.mem_append,
      List.not_mem_nil, or_false] at hx
    rcases hx with (rfl | hx) | rfl
    · decide
    · exact jsonEscapeChars_ne_newline _ _ hx
    · decide
  | num n =>
    simp only [jsonStringify, intDecimal, string_mk_data,
      List.mem_append] at hx
    rcases hx with hx | hx
    · by_cases h : n < 0
      · rw [if_pos h] at hx
        simp only [List.mem_cons, List.not_mem_nil, or_false] at hx
        subst hx
        decide
      · rw [if_neg h] at hx
        simp at hx
    · exact natDecimalAux_ne_newline _ _ (by simp) x hx
  | bool b =>
    cases b with
    | true => exact (by decide : ∀ y ∈ ("true" : String).data, y ≠ '\n') x hx
    | false => exact (by decide : ∀ y ∈ ("false" : String).data, y ≠ '\n') x hx
  | null => exact (by decide : ∀ y ∈ ("null" : String).data, y ≠ '\n') x hx

/-- Looking every own key of a record up again yields the record's values
in order, provided the keys are distinct, as for a JavaScript object. -/
theorem csvCells_of_nodup_keys (row : CsvRecord)
    (hnd : (row.map Prod.fst).Nodup) :
    (row.map Prod.fst).map (csvCell row) =
      row.map (fun kv => jsonStringify kv.2) := by
  induction row with
  | nil => rfl
  | cons kv rest ih =>
    obtain ⟨k, v⟩ := kv
    simp only [List.map_cons] at hnd ⊢
    rw [List.nodup_cons] at hnd
    obtain ⟨hk, hnd2⟩ := hnd
    congr 1
    · simp [csvCell, getProp]
    · have hstep : ∀ h ∈ rest.map Prod.fst,
          csvCell ((k, v) :: rest) h = csvCell rest h := by
        intro h hmem
        have hne : k ≠ h := fun hEq => hk (hEq ▸ hmem)
        simp [csvCell, getProp, hne]
      rw [List.map_congr_left hstep, ih hnd2]

/-- C6: exporting an empty record list produces no file: the handler
takes the guarded early return, shows the no-data notice and throws
nothing. -/
theorem empty_export_no_file (selectedMonth selectedYear : String) :
    handleDownloadBranchVisits [] selectedMonth selectedYear =
      .noData "No data to export"
        "There are no branch visits matching your filters." := rfl

/-- C7: for a non-empty homogeneous record list with distinct,
newline-free keys, the export is a file named by the report, month and
year pattern whose body joins the header row (the first record's keys in
insertion order, comma-joined) with one data row per record (the record's
values, each JSON-stringified, comma-joined), and no line of the body
contains a newline. -/
theorem csv_export_format (r : CsvRecord) (rs : List CsvRecord)
    (m y : String)
    (hkeys : ∀ h ∈ r.map Prod.fst, '\n' ∉ h.data)
    (hnd : (r.map Prod.fst).Nodup)
    (hhom : ∀ row ∈ r :: rs, row.map Prod.fst = r.map Prod.fst) :
    handleDownloadBranchVisits (r :: rs) m y =
      .file ("branch_visits_" ++ m ++ "_" ++ y ++ ".csv")
        (String.intercalate "\n"
          (String.intercalate "," (r.map Prod.fst) ::
            (r :: rs).map (fun row =>
              String.intercalate ","
                (row.map (fun kv => jsonStringify kv.2)))))
        "Download complete"
        "Branch visit data has been exported successfully." ∧
    ∀ line ∈ String.intercalate "," (r.map Prod.fst) ::
        (r :: rs).map (fun row =>
          String.intercalate "," (row.map (fun kv => jsonStringify kv.2))),
      '\n' ∉ line.data := by
  have hrows : ∀ row ∈ r :: rs,
      (r.map Prod.fst).map (csvCell row) =
        row.map (fun kv => jsonStringify kv.2) := by
    intro row hrow
    rw [← hhom row hrow]
    exact csvCells_of_nodup_keys row ((hhom row hrow) ▸ hnd)
  constructor
  · have hmap :
        (r :: rs).map (fun row =>
            String.intercalate "," ((r.map Prod.fst).map (csvCell row))) =
          (r :: rs).map (fun row =>
            String.intercalate ","
              (row.map (fun kv => jsonStringify kv.2))) :=
      List.map_congr_left (fun row hrow => by rw [hrows row hrow])
    simp only [handleDownloadBranchVisits]
    rw [hmap]
  · intro line hline hnl
    rcases List.mem_cons.mp hline with rfl | hline
    · rcases mem_intercalate_data _ _ _ hnl with hsep | ⟨a, ha, hc⟩
      · exact absurd hsep (by decide)
      · exact hkeys a ha hc
    · rcases List.mem_map.mp hline with ⟨row, hrow, rfl⟩
      rcases mem_intercalate_data _ _ _ hnl with hsep | ⟨a, ha, hc⟩
      · exact absurd hsep (by decide)
      · rcases List.mem_map.mp ha with ⟨kv, hkv, rfl⟩
        exact jsonStringify_ne_newline kv.2 '\n' hc rfl

/-- Witness for C7 at a concrete two-column record list. -/
theorem csv_export_format_witness :
    handleDownloadBranchVisits
        [[("name", JValue.str "a"), ("visits", JValue.num 5)]]
        "April" "2025" =
      .file ("branch_visits_" ++ "April" ++ "_" ++ "2025" ++ ".csv")
        (String.intercalate "\n"
          (String.intercalate ","
              ([(("name" : String), JValue.str "a"),
                ("visits", JValue.num 5)].map Prod.fst) ::
            [[(("name" : String), JValue.str "a"),
              ("visits", JValue.num 5)]].map
              (fun row => String.intercalate ","
                (row.map (fun kv => jsonStringify kv.2)))))
        "Download complete"
        "Branch visit data has been exported successfully." :=
  (csv_export_format [("name", JValue.str "a"), ("visits", JValue.num 5)] []
    "April" "2025" (by decide) (by decide) (by decide)).1

/-- Reading back the key just assigned returns the assigned value. -/
theorem getProp_setProp_self {A : Type} (l : List (String × A)) (k : String)
    (v : A) : getProp (setProp l k v) k = some v := by
  induction l with
  | nil => simp [setProp, getProp]
  | cons kv rest ih =>
    obtain ⟨k0, v0⟩ := kv
    by_cases h : k0 = k
    · simp [setProp, getProp, h]
    · simp [setProp, getProp, h, ih]

/-- Assignment to one key leaves every other key unchanged. -/
theorem getProp_setProp_ne {A : Type} (l : List (String × A)) (k k2 : String)
    (v : A) (h : k ≠ k2) : getProp (setProp l k v) k2 = getProp l k2 := by
  induction l with
  | nil => simp [setProp, getProp, h]
  | cons kv rest ih =>
    obtain ⟨k0, v0⟩ := kv
    by_cases h0 : k0 = k
    · subst h0
      simp [setProp, getProp, h]
    · simp [setProp, getProp, h0, ih]

/-- Keys after an assignment are the assigned key plus the old keys. -/
theorem mem_keys_setProp_iff {A : Type} (l : List (String × A))
    (k k2 : String) (v : A) :
    k2 ∈ (setProp l k v).map Prod.fst ↔ k2 = k ∨ k2 ∈ l.map Prod.fst := by
  induction l with
  | nil => simp [setProp]
  | cons kv rest ih =>
    obtain ⟨k0, v0⟩ := kv
    by_cases h : k0 = k
    · subst h
      have hs : setProp ((k0, v0) :: rest) k0 v = (k0, v) :: rest := by
        simp [setProp]
      rw [hs, List.map_cons, List.mem_cons, List.map_cons, List.mem_cons]
      tauto
    · have hs : setProp ((k0, v0) :: rest) k v = (k0, v0) :: setProp rest k v := by
        simp [setProp, h]
      rw [hs, List.map_cons, List.mem_cons, List.map_cons, List.mem_cons, ih]
      tauto

/-- Assignment preserves distinctness of the keys. -/
theorem nodup_keys_setProp {A : Type} (l : List (String × A)) (k : String)
    (v : A) (h : (l.map Prod.fst).Nodup) :
    ((setProp l k v).map Prod.fst).Nodup := by
  induction l with
  | nil => simp [setProp]
  | cons kv rest ih =>
    obtain ⟨k0, v0⟩ := kv
    simp only [List.map_cons, List.nodup_cons] at h
    obtain ⟨h1, h2⟩ := h
    by_cases h0 : k0 = k
    · subst h0
      have hs : setProp ((k0, v0) :: rest) k0 v = (k0, v) :: rest := by
        simp [setProp]
      rw [hs, List.map_cons, List.nodup_cons]
      exact ⟨h1, h2⟩
    · have hs : setProp ((k0, v0) :: rest) k v = (k0, v0) :: setProp rest k v := by
        simp [setProp, h0]
      rw [hs, List.map_cons, List.nodup_cons]
      refine ⟨?_, ih h2⟩
      rw [mem_keys_setProp_iff]
      rintro (rfl | hm)
      · exact h0 rfl
      · exact h1 hm

/-- On a list with distinct keys, membership of a pair determines the
lookup. -/
theorem getProp_eq_of_mem_nodup {A : Type} (l : List (String × A))
    (k : String) (v : A) (hnd : (l.map Prod.fst).Nodup)
    (hm : (k, v) ∈ l) : getProp l k = some v := by
  induction l with
  | nil => simp at hm
  | cons kv rest ih =>
    obtain ⟨k0, v0⟩ := kv
    simp only [List.map_cons, List.nodup_cons] at hnd
    obtain ⟨h1, h2⟩ := hnd
    rcases List.mem_cons.mp hm with hEq | hm2
    · rw [Prod.mk.injEq] at hEq
      obtain ⟨rfl, rfl⟩ := hEq
      simp [getProp]
    · have hk : k0 ≠ k := by
        intro hEq
        subst hEq
        exact h1 (List.mem_map_of_mem Prod.fst hm2)
      simp [getProp, hk, ih h2 hm2]

/-- A successful lookup is a member of the association list. -/
theorem mem_of_getProp_eq {A : Type} (l : List (String × A)) (k : String)
    (v : A) (h : getProp l k = some v) : (k, v) ∈ l := by
  induction l with
  | nil => simp [getProp] at h
  | cons kv rest ih =>
    obtain ⟨k0, v0⟩ := kv
    by_cases h0 : k0 = k
    · subst h0
      have hg : getProp ((k0, v0) :: rest) k0 = some v0 := by simp [getProp]
      rw [hg, Option.some.injEq] at h
      subst h
      exact List.mem_cons_self _ _
    · have hg : getProp ((k0, v0) :: rest) k = getProp rest k := by
        simp [getProp, h0]
      rw [hg] at h
      exact List.mem_cons_of_mem _ (ih h)

/-- C3: evaluation at the failing input. One approved visit answered
"yes" on the first qualitative metric; the claim expects the heatmap row
to count yes 1, no 0, total 1, but the code increments a property the
row object never initialized, so the yes bucket holds NaN, the no bucket
stays absent, and only the total is 1. -/
theorem heatmap_yes_bucket_nan :
    ((getQualitativeMetricsForHeatmap
      [⟨some "yes", none, none, none, none, none, none, 0, "approved"⟩]
      none none none).map
        (fun r => (r.metric, getProp r.props "yes", getProp r.props "no",
          getProp r.props "total"))) =
      [("leaders_aligned_with_code", some JNum.nan, none, some (JNum.int 1)),
       ("employees_feel_safe", none, none, some (JNum.int 0)),
       ("employees_feel_motivated", none, none, some (JNum.int 0)),
       ("leaders_abusive_language", none, none, some (JNum.int 0)),
       ("employees_comfort_escalation", none, none, some (JNum.int 0)),
       ("inclusive_culture", none, none, some (JNum.int 0))] := by rfl

/-- C8 counterexample: two summary rows visiting the same single branch.
With one distinct branch visited and one branch in total the claim
demands 100 percent, but the code divides by the number of visit rows and
yields 50. -/
theorem dashboard_coverage_counterexample :
    chCoveragePercentage [⟨"b1"⟩, ⟨"b1"⟩] = 50 ∧
    specDashboardCoverage 1 1 = 100 ∧
    chCoveragePercentage [⟨"b1"⟩, ⟨"b1"⟩] ≠ specDashboardCoverage 1 1 := by
  have h1 : chCoveragePercentage [⟨"b1"⟩, ⟨"b1"⟩] = 50 := by
    have hd : ([⟨"b1"⟩, ⟨"b1"⟩] : List SummaryVisitRow).map
        (fun v => v.branch_id) = ["b1", "b1"] := rfl
    have hdd : (["b1", "b1"] : List String).dedup = ["b1"] := by decide
    unfold chCoveragePercentage
    rw [hd, hdd]
    simp only [List.length_cons, List.length_nil]
    norm_num [jsRound, Int.floor_eq_iff]
  have h2 : specDashboardCoverage 1 1 = 100 := by
    norm_num [specDashboardCoverage, jsRound, Int.floor_eq_iff]
  exact ⟨h1, h2, by rw [h1, h2]; decide⟩

/-- C8 amended: the dashboard coverage equals Math.round of the number of
distinct branches visited in the monthly summary divided by the number of
visit rows of that summary, times 100. -/
theorem dashboard_coverage_amended (summaryData : List SummaryVisitRow)
    (h : summaryData ≠ []) :
    chCoveragePercentage summaryData =
      jsRound (((summaryData.map (fun v => v.branch_id)).toFinset.card : ℚ) /
        (summaryData.length : ℚ) * 100) := by
  unfold chCoveragePercentage
  rw [List.card_toFinset]

/-- Witness for the amended C8 at a one-row summary. -/
theorem dashboard_coverage_amended_witness :
    chCoveragePercentage [⟨"b1"⟩] =
      jsRound (((([⟨"b1"⟩] : List SummaryVisitRow).map
          (fun v => v.branch_id)).toFinset.card : ℚ) /
        (([⟨"b1"⟩] : List SummaryVisitRow).length : ℚ) * 100) :=
  dashboard_coverage_amended [⟨"b1"⟩] (by decide)

/-- C9 counterexample: the single update that approve issues carries only
the status column and no updated_at refresh, unlike the edit-modal
update. -/
theorem approve_update_lacks_updated_at :
    (updateReportStatusRequests "r1" "approved").length = 1 ∧
    (∀ req ∈ updateReportStatusRequests "r1" "approved",
      req.payload.map Prod.fst = ["status"] ∧
        "updated_at" ∉ req.payload.map Prod.fst) ∧
    "updated_at" ∈ (updateVisitPayload [] "draft" "t1").map Prod.fst := by
  refine ⟨rfl, ?_, by decide⟩
  intro req hreq
  simp only [updateReportStatusRequests, List.mem_singleton] at hreq
  subst hreq
  exact ⟨rfl, by decide⟩

/-- Columns not named in the payload keep their stored values when the
payload is applied to a row. -/
theorem applyPayload_frame (payload : List (String × String)) :
    ∀ (row : List (String × String)) (k : String),
      k ∉ payload.map Prod.fst →
      getProp (applyPayload row payload) k = getProp row k := by
  induction payload with
  | nil => intro row k h; rfl
  | cons kv rest ih =>
    intro row k h
    simp only [List.map_cons, List.mem_cons] at h
    push_neg at h
    obtain ⟨h1, h2⟩ := h
    have hstep : applyPayload row (kv :: rest) =
        applyPayload (setProp row kv.1 kv.2) rest := rfl
    rw [hstep, ih _ k h2, getProp_setProp_ne row kv.1 k kv.2 (Ne.symm h1)]

/-- C9 amended: each lifecycle transition issues exactly one persisted
update; the save and submit payload refreshes updated_at; the approve and
reject payload names only the status column; and every column outside a
transition's payload keeps its stored value. -/
theorem lifecycle_single_update (visitId reportId status updatedAt
    reviewStatus : String) (data : List (String × String)) :
    (updateVisitRequests visitId data status updatedAt).length = 1 ∧
    (updateReportStatusRequests reportId reviewStatus).length = 1 ∧
    "updated_at" ∈ (updateVisitPayload data status updatedAt).map Prod.fst ∧
    (∀ req ∈ updateReportStatusRequests reportId reviewStatus,
      req.payload.map Prod.fst = ["status"]) ∧
    (∀ (row : List (String × String)) (k : String),
      k ∉ (updateVisitPayload data status updatedAt).map Prod.fst →
      getProp (applyPayload row (updateVisitPayload data status updatedAt)) k =
        getProp row k) ∧
    (∀ (row : List (String × String)) (k : String), k ≠ "status" →
      getProp (applyPayload row [("status", reviewStatus)]) k =
        getProp row k) := by
  refine ⟨rfl, rfl, ?_, ?_, ?_, ?_⟩
  · exact (mem_keys_setProp_iff (setProp data "status" status) "updated_at"
      "updated_at" updatedAt).mpr (Or.inl rfl)
  · intro req hreq
    simp only [updateReportStatusRequests, List.mem_singleton] at hreq
    subst hreq
    rfl
  · intro row k hk
    exact applyPayload_frame _ row k hk
  · intro row k hk
    refine applyPayload_frame [("status", reviewStatus)] row k ?_
    simpa using hk

/-- Witness for the amended C9: a feedback column survives both kinds of
transition payloads untouched. -/
theorem lifecycle_single_update_witness :
    getProp (applyPayload [("feedback", "good")]
        (updateVisitPayload [] "submitted" "t1")) "feedback" =
      getProp [("feedback", "good")] "feedback" :=
  (lifecycle_single_update "v1" "r1" "submitted" "t1" "approved"
    []).2.2.2.2.1 [("feedback", "good")] "feedback" (by decide)

/-- Unfolding of the reference visit count at a cons. -/
theorem specVisitCount_cons (row : CatVisitRow) (rest : List CatVisitRow)
    (c : String) :
    specVisitCount (row :: rest) c =
      if jsOrStr row.branch_category "Uncategorized" = c
      then specVisitCount rest c + 1 else specVisitCount rest c := by
  unfold specVisitCount
  rw [List.filter_cons]
  by_cases h : jsOrStr row.branch_category "Uncategorized" = c
  · simp [h]
  · simp [h]

/-- Unfolding of the reference manning sum at a cons. -/
theorem specManningSum_cons (row : CatVisitRow) (rest : List CatVisitRow)
    (c : String) :
    specManningSum (row :: rest) c =
      if jsOrStr row.branch_category "Uncategorized" = c
      then jsOrZero row.manning_percentage + specManningSum rest c
      else specManningSum rest c := by
  unfold specManningSum
  rw [List.filter_cons]
  by_cases h : jsOrStr row.branch_category "Uncategorized" = c
  · simp [h]
  · simp [h]

/-- Unfolding of the reference attrition sum at a cons. -/
theorem specAttritionSum_cons (row : CatVisitRow) (rest : List CatVisitRow)
    (c : String) :
    specAttritionSum (row :: rest) c =
      if jsOrStr row.branch_category "Uncategorized" = c
      then jsOrZero row.attrition_percentage + specAttritionSum rest c
      else specAttritionSum rest c := by
  unfold specAttritionSum
  rw [List.filter_cons]
  by_cases h : jsOrStr row.branch_category "Uncategorized" = c
  · simp [h]
  · simp [h]

/-- Unfolding of the reference branch count at a cons. -/
theorem specBranchCount_cons (b : BranchRow) (rest : List BranchRow)
    (c : String) :
    specBranchCount (b :: rest) c =
      if jsOrStr b.category "Uncategorized" = c
      then specBranchCount rest c + 1 else specBranchCount rest c := by
  unfold specBranchCount
  rw [List.filter_cons]
  by_cases h : jsOrStr b.category "Uncategorized" = c
  · simp [h]
  · simp [h]

/-- The branch-count reduce computes, for every category key, the number
of live branches normalized to that key, on top of the accumulator. -/
theorem branchCounts_fold (bs : List BranchRow) :
    ∀ (acc : List (String × ℕ)) (c : String),
      (getProp (bs.foldl branchCountsStep acc) c).getD 0 =
        (getProp acc c).getD 0 + specBranchCount bs c := by
  induction bs with
  | nil => intro acc c; simp [specBranchCount]
  | cons b rest ih =>
    intro acc c
    have hstep : (b :: rest).foldl branchCountsStep acc =
        rest.foldl branchCountsStep (branchCountsStep acc b) := rfl
    rw [hstep, ih, specBranchCount_cons]
    by_cases h : jsOrStr b.category "Uncategorized" = c
    · rw [if_pos h]
      have hg : getProp (branchCountsStep acc b) c =
          some ((getProp acc c).getD 0 + 1) := by
        unfold branchCountsStep
        rw [h]
        exact getProp_setProp_self acc c _
      rw [hg]
      simp only [Option.getD_some]
      omega
    · rw [if_neg h]
      have hg : getProp (branchCountsStep acc b) c = getProp acc c := by
        unfold branchCountsStep
        exact getProp_setProp_ne acc _ c _ h
      rw [hg]

/-- The category fold computes, for every category key, the aggregate of
the processed rows normalized to that key, on top of the accumulator. -/
theorem catStats_fold (rows : List CatVisitRow) :
    ∀ (acc : List (String × StatAgg)) (c : String),
      getProp (rows.foldl catStatsStep acc) c =
        aggPlus (getProp acc c) (specVisitCount rows c)
          (specManningSum rows c) (specAttritionSum rows c) := by
  induction rows with
  | nil =>
    intro acc c
    cases h : getProp acc c with
    | none =>
      simp [aggPlus, specVisitCount, specManningSum, specAttritionSum, h]
    | some agg =>
      simp [aggPlus, specVisitCount, specManningSum, specAttritionSum, h]
  | cons row rest ih =>
    intro acc c
    have hstep : (row :: rest).foldl catStatsStep acc =
        rest.foldl catStatsStep (catStatsStep acc row) := rfl
    rw [hstep, ih, specVisitCount_cons, specManningSum_cons,
      specAttritionSum_cons]
    by_cases h : jsOrStr row.branch_category "Uncategorized" = c
    · rw [if_pos h, if_pos h, if_pos h]
      have hg : getProp (catStatsStep acc row) c =
          some ⟨((getProp acc c).getD ⟨0, 0, 0⟩).visits + 1,
            ((getProp acc c).getD ⟨0, 0, 0⟩).manningSum +
              jsOrZero row.manning_percentage,
            ((getProp acc c).getD ⟨0, 0, 0⟩).attritionSum +
              jsOrZero row.attrition_percentage⟩ := by
        simp only [catStatsStep]
        rw [h]
        exact getProp_setProp_self acc c _
      rw [hg]
      cases hacc : getProp acc c with
      | none =>
        simp only [aggPlus, hacc, Option.getD_none]
        rw [if_pos (by omega)]
        simp only [Option.some.injEq, StatAgg.mk.injEq]
        refine ⟨by omega, by ring, by ring⟩
      | some agg =>
        simp only [aggPlus, hacc, Option.getD_some]
        simp only [Option.some.injEq, StatAgg.mk.injEq]
        refine ⟨by omega, by ring, by ring⟩
    · rw [if_neg h, if_neg h, if_neg h]
      have hg : getProp (catStatsStep acc row) c = getProp acc c := by
        simp only [catStatsStep]
        exact getProp_setProp_ne acc _ c _ h
      rw [hg]

/-- The category fold keeps its keys distinct. -/
theorem catStats_fold_nodup (rows : List CatVisitRow) :
    ∀ (acc : List (String × StatAgg)), (acc.map Prod.fst).Nodup →
      (((rows.foldl catStatsStep acc).map Prod.fst).Nodup) := by
  induction rows with
  | nil => intro acc h; exact h
  | cons row rest ih =>
    intro acc h
    exact ih (catStatsStep acc row) (nodup_keys_setProp acc _ _ h)

/-- C4 counterexample: a month with no visits and one live gold branch.
The claim demands an entry for gold with zero visits and branch count 1,
but the output is empty, although the live count of gold is 1. -/
theorem category_month_stats_gold_missing :
    fetchCategoryStatsByMonth [] [⟨some "gold"⟩] 0 30 = [] ∧
    (getProp (branchCountsObj [⟨some "gold"⟩]) "gold").getD 0 = 1 :=
  ⟨rfl, by decide⟩

/-- C4 amended: category-month statistics produce an entry exactly for
each category with at least one submitted-or-approved visit in the month;
each entry carries that category's visit count, the rounded means of
manning and attrition (null metrics as 0), and the live branch count; a
category with zero visits in the month is omitted. -/
theorem category_month_stats_amended (data : List CatVisitRow)
    (branches : List BranchRow) (startDate endDate : ℤ) :
    (∀ st ∈ fetchCategoryStatsByMonth data branches startDate endDate,
      0 < st.visits ∧
      st.visits =
        specVisitCount (monthStatusFilter startDate endDate data) st.name ∧
      st.avgManning =
        jsRound (specManningSum (monthStatusFilter startDate endDate data)
          st.name / (st.visits : ℚ)) ∧
      st.avgAttrition =
        jsRound (specAttritionSum (monthStatusFilter startDate endDate data)
          st.name / (st.visits : ℚ)) ∧
      st.branchCount = specBranchCount branches st.name) ∧
    (∀ c : String,
      0 < specVisitCount (monthStatusFilter startDate endDate data) c →
      ∃ st ∈ fetchCategoryStatsByMonth data branches startDate endDate,
        st.name = c) := by
  have hchar : ∀ c,
      getProp (catStatsObj (monthStatusFilter startDate endDate data)) c =
        aggPlus none
          (specVisitCount (monthStatusFilter startDate endDate data) c)
          (specManningSum (monthStatusFilter startDate endDate data) c)
          (specAttritionSum (monthStatusFilter startDate endDate data) c) :=
    fun c => catStats_fold (monthStatusFilter startDate endDate data) [] c
  have hnd :
      ((catStatsObj (monthStatusFilter startDate endDate data)).map
        Prod.fst).Nodup :=
    catStats_fold_nodup (monthStatusFilter startDate endDate data) []
      (by simp)
  have hbc : ∀ c, (getProp (branchCountsObj branches) c).getD 0 =
      specBranchCount branches c := by
    intro c
    have hb := branchCounts_fold branches [] c
    simpa [getProp] using hb
  constructor
  · intro st hst
    unfold fetchCategoryStatsByMonth at hst
    rcases List.mem_map.mp hst with ⟨entry, hentry, rfl⟩
    obtain ⟨c, agg⟩ := entry
    have hget :
        getProp (catStatsObj (monthStatusFilter startDate endDate data)) c =
          some agg :=
      getProp_eq_of_mem_nodup _ c agg hnd hentry
    rw [hchar c] at hget
    unfold aggPlus at hget
    by_cases hc :
        0 < specVisitCount (monthStatusFilter startDate endDate data) c
    · rw [if_pos hc, Option.some.injEq] at hget
      subst hget
      have hne :
          specVisitCount (monthStatusFilter startDate endDate data) c ≠ 0 :=
        Nat.pos_iff_ne_zero.mp hc
      exact ⟨hc, rfl, by simp [hne], by simp [hne], hbc c⟩
    · rw [if_neg hc] at hget
      exact absurd hget (by simp)
  · intro c hc
    have hsome :
        getProp (catStatsObj (monthStatusFilter startDate endDate data)) c =
          some ⟨specVisitCount (monthStatusFilter startDate endDate data) c,
            specManningSum (monthStatusFilter startDate endDate data) c,
            specAttritionSum (monthStatusFilter startDate endDate data) c⟩ := by
      rw [hchar c]
      unfold aggPlus
      rw [if_pos hc]
    have hmem := mem_of_getProp_eq _ _ _ hsome
    unfold fetchCategoryStatsByMonth
    exact ⟨_, List.mem_map_of_mem _ hmem, rfl⟩

/-- Witness for the amended C4: a month with one approved gold visit
produces a gold entry. -/
theorem category_month_stats_amended_witness :
    ∃ st ∈ fetchCategoryStatsByMonth
        [⟨some "gold", some 40, some 10, 5, "approved"⟩] [⟨some "gold"⟩] 0 30,
      st.name = "gold" :=
  (category_month_stats_amended
    [⟨some "gold", some 40, some 10, 5, "approved"⟩] [⟨some "gold"⟩] 0 30).2
    "gold" (by decide)
